import Mathlib

/-!
Shallow embedding of `parse_grad_tuition.py`: a two-phase parser that turns a
flat list of string tokens (scraped tuition-page cells) into structured
tuition rates and fee blocks.

Strings are modelled as `List Char`.  Python's `re` digit class `\d` and
whitespace class `\s` are modelled over their ASCII ranges (the repository's
data is ASCII apart from the decorative `»` character, which is modelled
exactly).  Python dict rows become the `Row` structure, with `amount` an
`Option Nat` since the code can store `None` there.
-/

namespace GradTuition

abbrev Str := List Char

/-- ASCII decimal digit, modelling `\d` in the source's regexes. -/
def isDigitCh (c : Char) : Bool :=
  48 ≤ c.toNat && c.toNat ≤ 57

/-- Whitespace, modelling `\s` and `str.strip` in the source. -/
def isSpCh (c : Char) : Bool :=
  c = ' ' || c = '\t' || c = '\n' || c = '\r' || c.toNat = 11 || c.toNat = 12

/-- Scan for the first position where `$` is immediately followed by a digit
(the search for the regex `\$(\d[\d,]*)` in `money_amount_and_unit`,
line 13); returns the remainder of the string starting at that digit. -/
def findDollarDigit : Str → Option Str
  | [] => none
  | c :: rest =>
    if c = '$' then
      match rest with
      | [] => none
      | d :: tl => if isDigitCh d then some (d :: tl) else findDollarDigit (d :: tl)
    else
      findDollarDigit rest

/-- Value of a list of ASCII digits read in base 10, modelling Python `int`. -/
def natFromDigits (ds : Str) : Nat :=
  ds.foldl (fun n c => n * 10 + (c.toNat - 48)) 0

/-- Everything after the first `/`, modelling `s.split("/", 1)[1]`
(line 19); only ever used under the guard `"/" in s`. -/
def afterFirstSlash : Str → Str
  | [] => []
  | c :: rest => if c = '/' then rest else afterFirstSlash rest

/-- Python `str.strip` (line 19): drop whitespace from both ends. -/
def stripTok (s : Str) : Str :=
  ((s.dropWhile (fun c => isSpCh c)).reverse.dropWhile (fun c => isSpCh c)).reverse

/-- Helper for `collapseWs`: the flag records whether the previous kept
character came from a whitespace run. -/
def collapseWsAux : Bool → Str → Str
  | _, [] => []
  | prevSp, c :: rest =>
    if isSpCh c then
      if prevSp then collapseWsAux true rest
      else ' ' :: collapseWsAux true rest
    else c :: collapseWsAux false rest

/-- Python `re.sub(r"\s+", " ", unit)` (line 21): every maximal whitespace
run becomes a single space. -/
def collapseWs (s : Str) : Str := collapseWsAux false s

/-- Lines 7-22 of the source: extract `(amount, unit)` from a money token.
Amount is the digit-and-comma run at the first `$`-digit position with commas
removed; unit is the whitespace-normalised text after the first `/` when the
token contains one.  Returns `(none, none)` when no `$` is followed by a
digit. -/
def money_amount_and_unit (s : Str) : Option Nat × Option Str :=
  match findDollarDigit s with
  | none => (none, none)
  | some rest =>
    let grp := rest.takeWhile (fun c => isDigitCh c || c = ',')
    let amount := natFromDigits (grp.filter (fun c => c ≠ ','))
    let unit :=
      if '/' ∈ s then some (collapseWs (stripTok (afterFirstSlash s)))
      else none
    (some amount, unit)

/-- Helper for `looks_like_money`: does the string start with optional
whitespace followed by a digit (`\s*\d`)? -/
def wsThenDigit : Str → Bool
  | [] => false
  | c :: rest => if isDigitCh c then true else if isSpCh c then wsThenDigit rest else false

/-- Lines 24-25: search for the regex `\$\s*\d`. -/
def looks_like_money : Str → Bool
  | [] => false
  | c :: rest => (c = '$' && wsThenDigit rest) || looks_like_money rest

/-- Is `pat` a prefix of `s`? -/
def isPrefixTok : Str → Str → Bool
  | [], _ => true
  | _ :: _, [] => false
  | p :: ps, c :: cs => p = c && isPrefixTok ps cs

/-- Python substring containment `pat in s`. -/
def containsTok (pat : Str) : Str → Bool
  | [] => isPrefixTok pat []
  | c :: rest => isPrefixTok pat (c :: rest) || containsTok pat (rest)

/-- Lines 27-29: `looks_like_fee_name` is substring containment of "Fee". -/
def looks_like_fee_name (s : Str) : Bool :=
  containsTok ("Fee".toList) s

/-- Lines 105-106: `is_fee_header` re-checks the same containment twice. -/
def is_fee_header (tok : Str) : Bool :=
  looks_like_fee_name tok && containsTok ("Fee".toList) tok

/-- Line 115: `tok.replace("»", "")` removes every `»` character. -/
def removeGuillemets (s : Str) : Str :=
  s.filter (fun c => c ≠ '»')

/-- One emitted row (a Python dict with keys `label`, `amount`, `unit`).
Phase 1 stores it into `tuition_rates`; phase 2 stores it inside a fee
block.  `amount` is `Option Nat` because phase 2 can store `None`. -/
structure Row where
  label : Str
  amount : Option Nat
  unit : Option Str
deriving DecidableEq

/-- One emitted fee block (a Python dict with keys `fee_name`, `rows`). -/
structure FeeBlock where
  fee_name : Str
  rows : List Row
deriving DecidableEq

/-- The literal section marker "Per Credit Hour" (line 51). -/
def perCreditHourTok : Str := "Per Credit Hour".toList

/-- The literal section marker "Per Semester" (lines 56, 97, 101). -/
def perSemesterTok : Str := "Per Semester".toList

/-- The default unit installed by the "Per Credit Hour" marker (line 52). -/
def perCreditHourUnit : Str := "per credit hour".toList

/-- Python truthiness `unit if unit else tuition_unit_default` (line 73):
`None` and the empty string both fall back to the default. -/
def pyOrStr (u : Option Str) (d : Option Str) : Option Str :=
  match u with
  | some s => if s = [] then d else some s
  | none => d

/-- Python truthiness of `current_fee` (lines 88, 122): an `Option Str` is
truthy when it holds a non-empty string. -/
def truthyOptStr : Option Str → Bool
  | none => false
  | some s => decide (s ≠ [])

/-- Lines 48-78, phase 1 (`while i < len(items)` with index `i`), modelled
on the suffix of `items` starting at `i`.  Returns the emitted tuition rows
and the remaining suffix at loop exit (the suffix starting at the breaking
"Per Semester" token, or `[]` when the list was exhausted). -/
def phase1 (dflt : Option Str) : List Str → List Row × List Str
  | [] => ([], [])
  | token :: rest =>
    if token = perCreditHourTok then
      phase1 (some perCreditHourUnit) rest
    else if token = perSemesterTok then
      ([], token :: rest)
    else
      match rest with
      | money :: rest2 =>
        if looks_like_money money then
          match money_amount_and_unit money with
          | (some a, unit) =>
            let p := phase1 dflt rest2
            (⟨token, some a, pyOrStr unit dflt⟩ :: p.1, p.2)
          | (none, _) => phase1 dflt (money :: rest2)
        else phase1 dflt (money :: rest2)
      | [] => phase1 dflt []

/-- Lines 86-94: `flush_fee` appends the current block only when
`current_fee` is truthy and at least one row accumulated. -/
def flush_fee (fees : List FeeBlock) (cf : Option Str) (rows : List Row) :
    List FeeBlock :=
  if truthyOptStr cf && decide (rows ≠ []) then
    match cf with
    | some name => fees ++ [⟨name, rows⟩]
    | none => fees
  else fees

/-- Lines 108-138, phase 2 (the fee loop followed by the final
`flush_fee()`), modelled on the suffix of `items` starting at `i`, with the
mutable `current_fee`, `current_rows` and `parsed["fees"]` passed as
arguments `cf`, `rows`, `fees`. -/
def phase2 (cf : Option Str) (rows : List Row) (fees : List FeeBlock) :
    List Str → List FeeBlock
  | [] => flush_fee fees cf rows
  | tok :: rest =>
    if is_fee_header tok then
      phase2 (some (stripTok (removeGuillemets tok))) [] (flush_fee fees cf rows) rest
    else
      match rest with
      | money :: rest2 =>
        if truthyOptStr cf && looks_like_money money then
          let p := money_amount_and_unit money
          phase2 cf (rows ++ [⟨tok, p.1, p.2⟩]) fees rest2
        else phase2 cf rows fees (money :: rest2)
      | [] => phase2 cf rows fees []

/-- Lines 96-102: advance to the "Per Semester" marker and skip it (on the
suffix left over by phase 1). -/
def skipToFees (rem : List Str) : List Str :=
  match rem.dropWhile (fun t => decide (t ≠ perSemesterTok)) with
  | [] => []
  | t :: rest => if t = perSemesterTok then rest else t :: rest

/-- The whole script, lines 43-138: phase 1 over the tokens, then phase 2
from just past the "Per Semester" marker.  Returns
(`tuition_rates`, `fees`). -/
def parse_tokens (items : List Str) : List Row × List FeeBlock :=
  let p := phase1 none items
  (p.1, phase2 none [] [] (skipToFees p.2))

/-! Helper lemmas about the embedded parser. -/

/-- Membership in the output of `flush_fee`: a block is either an old one or
the freshly flushed block, which requires a truthy `current_fee` and a
non-empty row list. -/
theorem mem_flush_fee {fees : List FeeBlock} {cf : Option Str}
    {rows : List Row} {b : FeeBlock} (hb : b ∈ flush_fee fees cf rows) :
    b ∈ fees ∨ ∃ name, cf = some name ∧ name ≠ [] ∧ rows ≠ [] ∧
      b = ⟨name, rows⟩ := by
  unfold flush_fee at hb
  by_cases h : (truthyOptStr cf && decide (rows ≠ [])) = true
  · rw [if_pos h] at hb
    cases cf with
    | none => exact Or.inl hb
    | some name =>
      rcases List.mem_append.mp hb with h1 | h2
      · exact Or.inl h1
      · refine Or.inr ⟨name, rfl, ?_, ?_, ?_⟩
        · have ht := ((Bool.and_eq_true _ _).mp h).1
          simpa [truthyOptStr] using ht
        · have hr := ((Bool.and_eq_true _ _).mp h).2
          simpa using hr
        · simpa using h2
  · rw [if_neg h] at hb
    exact Or.inl hb

/-- Step equation: phase 1 on the empty list. -/
theorem phase1_nil (dflt : Option Str) : phase1 dflt [] = ([], []) := rfl

/-- Step equation: the "Per Credit Hour" marker installs the default unit. -/
theorem phase1_pch (dflt : Option Str) (rest : List Str) :
    phase1 dflt (perCreditHourTok :: rest) =
      phase1 (some perCreditHourUnit) rest := by
  rw [phase1.eq_def]
  simp

/-- Step equation: the "Per Semester" marker stops phase 1. -/
theorem phase1_psem (dflt : Option Str) (rest : List Str) :
    phase1 dflt (perSemesterTok :: rest) = ([], perSemesterTok :: rest) := by
  rw [phase1.eq_def]
  simp [show ¬perSemesterTok = perCreditHourTok by decide]

/-- Step equation: an ordinary token paired with a money token whose amount
extraction succeeds emits a tuition row. -/
theorem phase1_pair_some (dflt : Option Str) (token money : Str)
    (rest2 : List Str) (a : Nat) (unit : Option Str)
    (h1 : ¬token = perCreditHourTok) (h2 : ¬token = perSemesterTok)
    (h3 : looks_like_money money = true)
    (h4 : money_amount_and_unit money = (some a, unit)) :
    phase1 dflt (token :: money :: rest2) =
      (⟨token, some a, pyOrStr unit dflt⟩ :: (phase1 dflt rest2).1,
        (phase1 dflt rest2).2) := by
  rw [phase1.eq_def]
  simp [h1, h2, h3, h4]

/-- Step equation: an ordinary token whose successor is money but yields no
amount is skipped. -/
theorem phase1_pair_none (dflt : Option Str) (token money : Str)
    (rest2 : List Str) (snd : Option Str)
    (h1 : ¬token = perCreditHourTok) (h2 : ¬token = perSemesterTok)
    (h3 : looks_like_money money = true)
    (h4 : money_amount_and_unit money = (none, snd)) :
    phase1 dflt (token :: money :: rest2) = phase1 dflt (money :: rest2) := by
  rw [phase1.eq_def]
  simp [h1, h2, h3, h4]

/-- Step equation: an ordinary token whose successor is not money is
skipped. -/
theorem phase1_pair_nomoney (dflt : Option Str) (token money : Str)
    (rest2 : List Str)
    (h1 : ¬token = perCreditHourTok) (h2 : ¬token = perSemesterTok)
    (h3 : ¬looks_like_money money = true) :
    phase1 dflt (token :: money :: rest2) = phase1 dflt (money :: rest2) := by
  rw [phase1.eq_def]
  simp [h1, h2, h3]

/-- Step equation: a final ordinary token emits nothing. -/
theorem phase1_single (dflt : Option Str) (token : Str)
    (h1 : ¬token = perCreditHourTok) (h2 : ¬token = perSemesterTok) :
    phase1 dflt [token] = ([], []) := by
  rw [phase1.eq_def]
  simp [h1, h2]
  rfl

/-- Every row emitted by phase 1 draws its amount from a money-looking token
of the traversed list, and that amount is never `none` (the
`if amount is not None` guard on line 69 of the source). -/
theorem phase1_rows_amount (dflt : Option Str) (l : List Str) :
    ∀ r ∈ (phase1 dflt l).1, ∃ m, m ∈ l ∧ looks_like_money m = true ∧
      r.amount = (money_amount_and_unit m).1 ∧ r.amount ≠ none := by
  induction dflt, l using phase1.induct with
  | case1 dflt =>
    intro r hr
    simp [phase1_nil] at hr
  | case2 dflt rest ih =>
    intro r hr
    rw [phase1_pch] at hr
    rcases ih r hr with ⟨m, hm, hmy, ha, hn⟩
    exact ⟨m, List.mem_cons_of_mem _ hm, hmy, ha, hn⟩
  | case3 dflt rest h =>
    intro r hr
    simp [phase1_psem] at hr
  | case4 dflt token h1 h2 money rest2 h3 a unit h4 ih =>
    intro r hr
    rw [phase1_pair_some dflt token money rest2 a unit h1 h2 h3 h4] at hr
    rcases List.mem_cons.mp hr with h | h
    · refine ⟨money, List.mem_cons_of_mem _ (List.mem_cons_self _ _), h3, ?_, ?_⟩
      · rw [h4, h]
      · rw [h]
        simp
    · rcases ih r h with ⟨m, hm, hmy, ha, hn⟩
      exact ⟨m, List.mem_cons_of_mem _ (List.mem_cons_of_mem _ hm), hmy, ha, hn⟩
  | case5 dflt token h1 h2 money rest2 h3 snd h4 ih =>
    intro r hr
    rw [phase1_pair_none dflt token money rest2 snd h1 h2 h3 h4] at hr
    rcases ih r hr with ⟨m, hm, hmy, ha, hn⟩
    exact ⟨m, List.mem_cons_of_mem _ hm, hmy, ha, hn⟩
  | case6 dflt token h1 h2 money rest2 h3 ih =>
    intro r hr
    rw [phase1_pair_nomoney dflt token money rest2 h1 h2 h3] at hr
    rcases ih r hr with ⟨m, hm, hmy, ha, hn⟩
    exact ⟨m, List.mem_cons_of_mem _ hm, hmy, ha, hn⟩
  | case7 dflt token h1 h2 ih =>
    intro r hr
    simp [phase1_single dflt token h1 h2] at hr

/-- Every label emitted by phase 1 differs from both section markers, since
those two tokens are handled by the first two branches of the loop. -/
theorem phase1_rows_label (dflt : Option Str) (l : List Str) :
    ∀ r ∈ (phase1 dflt l).1,
      r.label ≠ perCreditHourTok ∧ r.label ≠ perSemesterTok := by
  induction dflt, l using phase1.induct with
  | case1 dflt =>
    intro r hr
    simp [phase1_nil] at hr
  | case2 dflt rest ih =>
    intro r hr
    rw [phase1_pch] at hr
    exact ih r hr
  | case3 dflt rest h =>
    intro r hr
    simp [phase1_psem] at hr
  | case4 dflt token h1 h2 money rest2 h3 a unit h4 ih =>
    intro r hr
    rw [phase1_pair_some dflt token money rest2 a unit h1 h2 h3 h4] at hr
    rcases List.mem_cons.mp hr with h | h
    · rw [h]
      exact ⟨h1, h2⟩
    · exact ih r h
  | case5 dflt token h1 h2 money rest2 h3 snd h4 ih =>
    intro r hr
    rw [phase1_pair_none dflt token money rest2 snd h1 h2 h3 h4] at hr
    exact ih r hr
  | case6 dflt token h1 h2 money rest2 h3 ih =>
    intro r hr
    rw [phase1_pair_nomoney dflt token money rest2 h1 h2 h3] at hr
    exact ih r hr
  | case7 dflt token h1 h2 ih =>
    intro r hr
    simp [phase1_single dflt token h1 h2] at hr

/-- The suffix returned by phase 1 only holds tokens of its input. -/
theorem phase1_rem_subset (dflt : Option Str) (l : List Str) :
    ∀ x ∈ (phase1 dflt l).2, x ∈ l := by
  induction dflt, l using phase1.induct with
  | case1 dflt =>
    intro x hx
    simp [phase1_nil] at hx
  | case2 dflt rest ih =>
    intro x hx
    rw [phase1_pch] at hx
    exact List.mem_cons_of_mem _ (ih x hx)
  | case3 dflt rest h =>
    intro x hx
    rw [phase1_psem] at hx
    exact hx
  | case4 dflt token h1 h2 money rest2 h3 a unit h4 ih =>
    intro x hx
    rw [phase1_pair_some dflt token money rest2 a unit h1 h2 h3 h4] at hx
    exact List.mem_cons_of_mem _ (List.mem_cons_of_mem _ (ih x hx))
  | case5 dflt token h1 h2 money rest2 h3 snd h4 ih =>
    intro x hx
    rw [phase1_pair_none dflt token money rest2 snd h1 h2 h3 h4] at hx
    exact List.mem_cons_of_mem _ (ih x hx)
  | case6 dflt token h1 h2 money rest2 h3 ih =>
    intro x hx
    rw [phase1_pair_nomoney dflt token money rest2 h1 h2 h3] at hx
    exact List.mem_cons_of_mem _ (ih x hx)
  | case7 dflt token h1 h2 ih =>
    intro x hx
    simp [phase1_single dflt token h1 h2] at hx

/-- Dropping a while-prefix only removes elements. -/
theorem mem_of_mem_dropWhileList {α : Type} {p : α → Bool} :
    ∀ {l : List α} {x : α}, x ∈ l.dropWhile p → x ∈ l := by
  intro l
  induction l with
  | nil => intro x hx; simp at hx
  | cons a tl ih =>
    intro x hx
    rw [List.dropWhile_cons] at hx
    by_cases h : p a = true
    · rw [if_pos h] at hx
      exact List.mem_cons_of_mem _ (ih hx)
    · rw [if_neg h] at hx
      exact hx

/-- The suffix handed to phase 2 only holds tokens of the phase-1 leftover. -/
theorem skipToFees_subset (rem : List Str) :
    ∀ x ∈ skipToFees rem, x ∈ rem := by
  intro x hx
  unfold skipToFees at hx
  split at hx
  · simp at hx
  · rename_i t rest hd
    split at hx
    · exact mem_of_mem_dropWhileList (by rw [hd]; exact List.mem_cons_of_mem _ hx)
    · exact mem_of_mem_dropWhileList (by rw [hd]; exact hx)

/-- Step equation: phase 2 on the empty list flushes the current block. -/
theorem phase2_nil (cf : Option Str) (rows : List Row) (fees : List FeeBlock) :
    phase2 cf rows fees [] = flush_fee fees cf rows := rfl

/-- Step equation: a header token starts a new block. -/
theorem phase2_header (cf : Option Str) (rows : List Row)
    (fees : List FeeBlock) (tok : Str) (rest : List Str)
    (h : is_fee_header tok = true) :
    phase2 cf rows fees (tok :: rest) =
      phase2 (some (stripTok (removeGuillemets tok)))
        [] (flush_fee fees cf rows) rest := by
  rw [phase2.eq_def]
  simp [h]

/-- Step equation: a non-header token with a truthy current fee and a money
successor appends a row whose amount is whatever extraction returned. -/
theorem phase2_row (cf : Option Str) (rows : List Row) (fees : List FeeBlock)
    (tok money : Str) (rest2 : List Str)
    (h : ¬is_fee_header tok = true)
    (hc : (truthyOptStr cf && looks_like_money money) = true) :
    phase2 cf rows fees (tok :: money :: rest2) =
      phase2 cf
        (rows ++ [⟨tok, (money_amount_and_unit money).1,
          (money_amount_and_unit money).2⟩]) fees rest2 := by
  rw [phase2.eq_def]
  simp [h, hc]

/-- Step equation: a non-header token that cannot start a row is skipped. -/
theorem phase2_skip (cf : Option Str) (rows : List Row) (fees : List FeeBlock)
    (tok money : Str) (rest2 : List Str)
    (h : ¬is_fee_header tok = true)
    (hc : ¬(truthyOptStr cf && looks_like_money money) = true) :
    phase2 cf rows fees (tok :: money :: rest2) =
      phase2 cf rows fees (money :: rest2) := by
  rw [phase2.eq_def]
  simp [h, hc]

/-- Step equation: a final non-header token changes nothing before the
flush. -/
theorem phase2_single (cf : Option Str) (rows : List Row)
    (fees : List FeeBlock) (tok : Str) (h : ¬is_fee_header tok = true) :
    phase2 cf rows fees [tok] = flush_fee fees cf rows := by
  rw [phase2.eq_def]
  simp [h]
  rfl

/-- Row soundness for phase 2, over an arbitrary row predicate `P`: if `P`
holds of the accumulated rows, of the rows of already-flushed blocks, and of
any row the loop could build from a non-header label and a money-looking
token of the worklist, then `P` holds of every row of every output block. -/
theorem phase2_rows_pred (P : Row → Prop) (cf : Option Str) (rows : List Row)
    (fees : List FeeBlock) (l : List Str) :
    (∀ tok m, tok ∈ l → m ∈ l → ¬is_fee_header tok = true →
      looks_like_money m = true →
      P ⟨tok, (money_amount_and_unit m).1, (money_amount_and_unit m).2⟩) →
    (∀ r ∈ rows, P r) →
    (∀ b ∈ fees, ∀ r ∈ b.rows, P r) →
    ∀ b ∈ phase2 cf rows fees l, ∀ r ∈ b.rows, P r := by
  induction cf, rows, fees, l using phase2.induct with
  | case1 cf rows fees =>
    intro _ hrows hfees b hb r hr
    rw [phase2_nil] at hb
    rcases mem_flush_fee hb with h | ⟨name, _, _, _, hbe⟩
    · exact hfees b h r hr
    · rw [hbe] at hr
      exact hrows r hr
  | case2 cf rows fees tok rest h ih =>
    intro hl hrows hfees b hb r hr
    rw [phase2_header cf rows fees tok rest h] at hb
    refine ih ?_ ?_ ?_ b hb r hr
    · intro t m ht hm hh hmy
      exact hl t m (List.mem_cons_of_mem _ ht) (List.mem_cons_of_mem _ hm) hh hmy
    · intro r hr
      simp at hr
    · intro b hb r hr
      rcases mem_flush_fee hb with hb2 | ⟨name, _, _, _, hbe⟩
      · exact hfees b hb2 r hr
      · rw [hbe] at hr
        exact hrows r hr
  | case3 cf rows fees tok h money rest2 hc p ih =>
    intro hl hrows hfees b hb r hr
    rw [phase2_row cf rows fees tok money rest2 h hc] at hb
    refine ih ?_ ?_ ?_ b hb r hr
    · intro t m ht hm hh hmy
      exact hl t m (List.mem_cons_of_mem _ (List.mem_cons_of_mem _ ht))
        (List.mem_cons_of_mem _ (List.mem_cons_of_mem _ hm)) hh hmy
    · intro r hr
      rcases List.mem_append.mp hr with h2 | h2
      · exact hrows r h2
      · have hre : r = ⟨tok, (money_amount_and_unit money).1,
            (money_amount_and_unit money).2⟩ := by simpa using h2
        rw [hre]
        exact hl tok money (List.mem_cons_self _ _)
          (List.mem_cons_of_mem _ (List.mem_cons_self _ _)) h
          ((Bool.and_eq_true _ _).mp hc).2
    · exact hfees
  | case4 cf rows fees tok h money rest2 hc ih =>
    intro hl hrows hfees b hb r hr
    rw [phase2_skip cf rows fees tok money rest2 h hc] at hb
    refine ih ?_ hrows hfees b hb r hr
    intro t m ht hm hh hmy
    exact hl t m (List.mem_cons_of_mem _ ht) (List.mem_cons_of_mem _ hm) hh hmy
  | case5 cf rows fees tok h ih =>
    intro hl hrows hfees b hb r hr
    rw [phase2_single cf rows fees tok h] at hb
    rcases mem_flush_fee hb with h2 | ⟨name, _, _, _, hbe⟩
    · exact hfees b h2 r hr
    · rw [hbe] at hr
      exact hrows r hr

/-- Name soundness for phase 2, over an arbitrary name predicate `P`: every
output block is named either by an already-flushed name, by the pending
`current_fee`, or by a header token of the worklist with `»` removed and
whitespace stripped. -/
theorem phase2_name_pred (P : Str → Prop) (cf : Option Str) (rows : List Row)
    (fees : List FeeBlock) (l : List Str) :
    (∀ t, t ∈ l → is_fee_header t = true →
      P (stripTok (removeGuillemets t))) →
    (∀ s, cf = some s → P s) →
    (∀ b ∈ fees, P b.fee_name) →
    ∀ b ∈ phase2 cf rows fees l, P b.fee_name := by
  induction cf, rows, fees, l using phase2.induct with
  | case1 cf rows fees =>
    intro _ hcf hfees b hb
    rw [phase2_nil] at hb
    rcases mem_flush_fee hb with h | ⟨name, hn, _, _, hbe⟩
    · exact hfees b h
    · rw [hbe]
      exact hcf name hn
  | case2 cf rows fees tok rest h ih =>
    intro hl hcf hfees b hb
    rw [phase2_header cf rows fees tok rest h] at hb
    refine ih ?_ ?_ ?_ b hb
    · intro t ht hh
      exact hl t (List.mem_cons_of_mem _ ht) hh
    · intro s hs
      have : s = stripTok (removeGuillemets tok) := by
        simpa using hs.symm
      rw [this]
      exact hl tok (List.mem_cons_self _ _) h
    · intro b hb
      rcases mem_flush_fee hb with h2 | ⟨name, hn, _, _, hbe⟩
      · exact hfees b h2
      · rw [hbe]
        exact hcf name hn
  | case3 cf rows fees tok h money rest2 hc p ih =>
    intro hl hcf hfees b hb
    rw [phase2_row cf rows fees tok money rest2 h hc] at hb
    refine ih ?_ hcf hfees b hb
    intro t ht hh
    exact hl t (List.mem_cons_of_mem _ (List.mem_cons_of_mem _ ht)) hh
  | case4 cf rows fees tok h money rest2 hc ih =>
    intro hl hcf hfees b hb
    rw [phase2_skip cf rows fees tok money rest2 h hc] at hb
    refine ih ?_ hcf hfees b hb
    intro t ht hh
    exact hl t (List.mem_cons_of_mem _ ht) hh
  | case5 cf rows fees tok h ih =>
    intro hl hcf hfees b hb
    rw [phase2_single cf rows fees tok h] at hb
    rcases mem_flush_fee hb with h2 | ⟨name, hn, _, _, hbe⟩
    · exact hfees b h2
    · rw [hbe]
      exact hcf name hn

/-- Phase 2 never outputs a block whose row list is empty: `flush_fee` only
appends blocks with at least one row. -/
theorem phase2_rows_nonempty (cf : Option Str) (rows : List Row)
    (fees : List FeeBlock) (l : List Str) :
    (∀ b ∈ fees, b.rows ≠ []) →
    ∀ b ∈ phase2 cf rows fees l, b.rows ≠ [] := by
  induction cf, rows, fees, l using phase2.induct with
  | case1 cf rows fees =>
    intro hfees b hb
    rw [phase2_nil] at hb
    rcases mem_flush_fee hb with h | ⟨name, _, _, hne, hbe⟩
    · exact hfees b h
    · rw [hbe]
      simpa using hne
  | case2 cf rows fees tok rest h ih =>
    intro hfees b hb
    rw [phase2_header cf rows fees tok rest h] at hb
    refine ih ?_ b hb
    intro b hb
    rcases mem_flush_fee hb with h2 | ⟨name, _, _, hne, hbe⟩
    · exact hfees b h2
    · rw [hbe]
      simpa using hne
  | case3 cf rows fees tok h money rest2 hc p ih =>
    intro hfees b hb
    rw [phase2_row cf rows fees tok money rest2 h hc] at hb
    exact ih hfees b hb
  | case4 cf rows fees tok h money rest2 hc ih =>
    intro hfees b hb
    rw [phase2_skip cf rows fees tok money rest2 h hc] at hb
    exact ih hfees b hb
  | case5 cf rows fees tok h ih =>
    intro hfees b hb
    rw [phase2_single cf rows fees tok h] at hb
    rcases mem_flush_fee hb with h2 | ⟨name, _, _, hne, hbe⟩
    · exact hfees b h2
    · rw [hbe]
      simpa using hne

/-- A string containing a pattern contains the pattern's head character. -/
theorem head_mem_of_containsTok (p : Char) (ps : Str) :
    ∀ (s : Str), containsTok (p :: ps) s = true → p ∈ s := by
  intro s
  induction s with
  | nil =>
    intro h
    simp [containsTok, isPrefixTok] at h
  | cons c rest ih =>
    intro h
    rw [containsTok] at h
    rcases (Bool.or_eq_true _ _).mp h with h1 | h2
    · rw [isPrefixTok] at h1
      have hc : p = c := by
        have := ((Bool.and_eq_true _ _).mp h1).1
        simpa using this
      rw [hc]
      exact List.mem_cons_self _ _
    · exact List.mem_cons_of_mem _ (ih h2)

/-- An element on which the predicate fails survives `dropWhile`. -/
theorem mem_dropWhile_of_not {α : Type} {p : α → Bool} {c : α}
    (hc : p c = false) : ∀ {l : List α}, c ∈ l → c ∈ l.dropWhile p := by
  intro l
  induction l with
  | nil =>
    intro h
    simp at h
  | cons a tl ih =>
    intro h
    rw [List.dropWhile_cons]
    by_cases ha : p a = true
    · rw [if_pos ha]
      rcases List.mem_cons.mp h with h1 | h2
      · exfalso
        rw [h1, ha] at hc
        simp at hc
      · exact ih h2
    · rw [if_neg ha]
      exact h

/-- A non-whitespace character survives `stripTok`. -/
theorem mem_stripTok_of_not_sp {c : Char} {s : Str}
    (hc : isSpCh c = false) (h : c ∈ s) : c ∈ stripTok s := by
  unfold stripTok
  rw [List.mem_reverse]
  exact mem_dropWhile_of_not hc (List.mem_reverse.mpr (mem_dropWhile_of_not hc h))

/-- A character other than `»` survives `removeGuillemets`. -/
theorem mem_removeGuillemets_of_ne {c : Char} {s : Str}
    (hc : c ≠ '»') (h : c ∈ s) : c ∈ removeGuillemets s := by
  unfold removeGuillemets
  exact List.mem_filter.mpr ⟨h, by simpa using hc⟩

/-- The name a fee header token turns into still holds the character `F`. -/
theorem F_mem_header_name {t : Str} (h : is_fee_header t = true) :
    'F' ∈ stripTok (removeGuillemets t) := by
  rw [is_fee_header] at h
  have hcont : containsTok ("Fee".toList) t = true :=
    ((Bool.and_eq_true _ _).mp h).2
  have hFee : ("Fee".toList : Str) = 'F' :: ['e', 'e'] := rfl
  rw [hFee] at hcont
  have hF : 'F' ∈ t := head_mem_of_containsTok 'F' ['e', 'e'] t hcont
  exact mem_stripTok_of_not_sp (by decide)
    (mem_removeGuillemets_of_ne (by decide) hF)

/-! Claim theorems. -/

/-- C1, counterexample: in the fee region the label "Full time" paired with
the token "$ 5" — which matches the money search pattern through the
whitespace yet fails amount extraction — is emitted as a fee row whose
amount is null, so a row with a failed extraction is not dropped. -/
theorem c1_counterexample :
    ∃ b ∈ (parse_tokens ["Per Semester".toList, "Some Fee".toList,
      "Full time".toList, "$ 5".toList]).2,
      ∃ r ∈ b.rows, r.amount = none := by
  decide

/-- C1, amended: every emitted tuition rate carries a non-null amount equal
to the extraction result of a money-looking input token, while every fee row
carries exactly the extraction result of a money-looking input token — a
value that is null when the token matched the money pattern only thanks to
whitespace between the dollar sign and the first digit. -/
theorem c1_amount_integrity (items : List Str) :
    (∀ r ∈ (parse_tokens items).1, ∃ m, m ∈ items ∧
      looks_like_money m = true ∧ r.amount = (money_amount_and_unit m).1 ∧
      r.amount ≠ none) ∧
    (∀ b ∈ (parse_tokens items).2, ∀ r ∈ b.rows, ∃ m, m ∈ items ∧
      looks_like_money m = true ∧
      r.amount = (money_amount_and_unit m).1) := by
  constructor
  · intro r hr
    exact phase1_rows_amount none items r hr
  · intro b hb r hr
    refine phase2_rows_pred
      (fun r => ∃ m, m ∈ items ∧ looks_like_money m = true ∧
        r.amount = (money_amount_and_unit m).1)
      none [] [] (skipToFees (phase1 none items).2) ?_ ?_ ?_ b hb r hr
    · intro tok m _ hm _ hmy
      exact ⟨m, phase1_rem_subset none items m (skipToFees_subset _ m hm),
        hmy, rfl⟩
    · intro r hr
      simp at hr
    · intro b hb
      simp at hb

/-- Witness for C1 at a concrete input and its emitted tuition row. -/
theorem c1_amount_integrity_witness :
    ∃ m, m ∈ ["Per Credit Hour".toList,
      "Summer Courses (Summer 2025)".toList, "$1,780".toList] ∧
      looks_like_money m = true ∧
      (Row.mk ("Summer Courses (Summer 2025)".toList) (some 1780)
        (some ("per credit hour".toList))).amount =
        (money_amount_and_unit m).1 ∧
      (Row.mk ("Summer Courses (Summer 2025)".toList) (some 1780)
        (some ("per credit hour".toList))).amount ≠ none :=
  (c1_amount_integrity ["Per Credit Hour".toList,
    "Summer Courses (Summer 2025)".toList, "$1,780".toList]).1
    (Row.mk ("Summer Courses (Summer 2025)".toList) (some 1780)
      (some ("per credit hour".toList))) (by decide)

/-- C2: on Scenario A's token list the parser emits exactly one tuition
rate — label "Summer Courses (Summer 2025)", amount 1780, unit
"per credit hour" — and one fee block "Activity Fee" whose rows are
Full time at 125 and Part time at 62, both with no unit. -/
theorem c2_scenario_a :
    parse_tokens ["Per Credit Hour".toList,
      "Summer Courses (Summer 2025)".toList, "$1,780".toList,
      "Per Semester".toList, "Activity Fee »".toList, "Full time".toList,
      "$125".toList, "Part time".toList, "$62".toList] =
      ([⟨"Summer Courses (Summer 2025)".toList, some 1780,
          some ("per credit hour".toList)⟩],
       [⟨"Activity Fee".toList,
          [⟨"Full time".toList, some 125, none⟩,
           ⟨"Part time".toList, some 62, none⟩]⟩]) := by
  decide

/-- C3, counterexample: on ["CAPS Courses", "»", "$1,851 /per course"] the
parser does not emit zero tuition rows. -/
theorem c3_counterexample :
    (parse_tokens ["CAPS Courses".toList, "»".toList,
      "$1,851 /per course".toList]).1 ≠ [] := by
  decide

/-- C3, amended: the pair ("CAPS Courses", money) is indeed dropped by the
one-token lookahead, but the loop then lands on the stray "»" token, whose
successor is the money token, so exactly one tuition row is emitted with
the stray token as its label. -/
theorem c3_stray_token :
    parse_tokens ["CAPS Courses".toList, "»".toList,
      "$1,851 /per course".toList] =
      ([⟨"»".toList, some 1851, some ("per course".toList)⟩], []) := by
  decide

/-- C4, counterexample: inside the fee region the token "$1 Fee" — a money
value containing "Fee" — is consumed as a fee header and names the
resulting block, so money tokens are not excluded from header detection. -/
theorem c4_counterexample :
    (parse_tokens ["Per Semester".toList, "$1 Fee".toList,
      "Full time".toList, "$5".toList]).2 =
      [⟨"$1 Fee".toList, [⟨"Full time".toList, some 5, none⟩]⟩] ∧
    looks_like_money ("$1 Fee".toList) = true ∧
    is_fee_header ("$1 Fee".toList) = true := by
  decide

/-- C4, amended: a token is treated as a fee header exactly when it holds
the substring "Fee", with no exclusion of money values; consequently every
emitted block is named by some input token containing "Fee" — possibly a
money token — with `»` removed and whitespace stripped. -/
theorem c4_header_detection (items : List Str) :
    (∀ tok, is_fee_header tok = looks_like_fee_name tok) ∧
    (∀ b ∈ (parse_tokens items).2, ∃ t, t ∈ items ∧
      is_fee_header t = true ∧
      b.fee_name = stripTok (removeGuillemets t)) := by
  constructor
  · intro tok
    simp [is_fee_header, looks_like_fee_name, Bool.and_self]
  · intro b hb
    refine phase2_name_pred
      (fun name => ∃ t, t ∈ items ∧ is_fee_header t = true ∧
        name = stripTok (removeGuillemets t))
      none [] [] (skipToFees (phase1 none items).2) ?_ ?_ ?_ b hb
    · intro t ht hh
      exact ⟨t, phase1_rem_subset none items t (skipToFees_subset _ t ht),
        hh, rfl⟩
    · intro s hs
      simp at hs
    · intro b hb
      simp at hb

/-- Witness for C4 at a concrete input and its emitted block. -/
theorem c4_header_detection_witness :
    ∃ t, t ∈ ["Per Semester".toList, "$1 Fee".toList, "Full time".toList,
      "$5".toList] ∧ is_fee_header t = true ∧
      (FeeBlock.mk ("$1 Fee".toList)
        [Row.mk ("Full time".toList) (some 5) none]).fee_name =
        stripTok (removeGuillemets t) :=
  (c4_header_detection ["Per Semester".toList, "$1 Fee".toList,
    "Full time".toList, "$5".toList]).2
    (FeeBlock.mk ("$1 Fee".toList)
      [Row.mk ("Full time".toList) (some 5) none]) (by decide)

/-- C5, counterexample: inside the fee region the marker token
"Per Credit Hour" gets no special treatment and is emitted verbatim as a
fee row label. -/
theorem c5_counterexample :
    ∃ b ∈ (parse_tokens ["Per Semester".toList, "Activity Fee".toList,
      "Per Credit Hour".toList, "$5".toList]).2,
      ∃ r ∈ b.rows, r.label = perCreditHourTok := by
  decide

/-- C5, amended: the section markers never appear as tuition-rate labels
(phase 1 consumes them structurally) nor as fee names (every fee name holds
the character `F`, which the markers lack), but phase 2 gives them no
special treatment and they can be emitted as fee row labels. -/
theorem c5_markers (items : List Str) :
    (∀ r ∈ (parse_tokens items).1,
      r.label ≠ perCreditHourTok ∧ r.label ≠ perSemesterTok) ∧
    (∀ b ∈ (parse_tokens items).2,
      b.fee_name ≠ perCreditHourTok ∧ b.fee_name ≠ perSemesterTok) := by
  constructor
  · intro r hr
    exact phase1_rows_label none items r hr
  · intro b hb
    refine phase2_name_pred
      (fun name => name ≠ perCreditHourTok ∧ name ≠ perSemesterTok)
      none [] [] (skipToFees (phase1 none items).2) ?_ ?_ ?_ b hb
    · intro t _ hh
      have hF := F_mem_header_name hh
      constructor
      · intro he
        rw [he] at hF
        revert hF
        decide
      · intro he
        rw [he] at hF
        revert hF
        decide
    · intro s hs
      simp at hs
    · intro b hb
      simp at hb

/-- Witness for C5 at Scenario A's input, its tuition row and its block. -/
theorem c5_markers_witness :
    (Row.mk ("Summer Courses (Summer 2025)".toList) (some 1780)
        (some ("per credit hour".toList))).label ≠ perCreditHourTok ∧
    (Row.mk ("Summer Courses (Summer 2025)".toList) (some 1780)
        (some ("per credit hour".toList))).label ≠ perSemesterTok :=
  (c5_markers ["Per Credit Hour".toList,
    "Summer Courses (Summer 2025)".toList, "$1,780".toList,
    "Per Semester".toList, "Activity Fee »".toList, "Full time".toList,
    "$125".toList, "Part time".toList, "$62".toList]).1
    (Row.mk ("Summer Courses (Summer 2025)".toList) (some 1780)
      (some ("per credit hour".toList))) (by decide)

/-- C6: header detection takes precedence in the fee region — no emitted
fee row label contains "Fee" (a "Fee"-containing token always starts a new
block instead), and the fee-region pair ["Some Fee", "$125"] produces no
row at all: its block stays empty and is dropped at flush. -/
theorem c6_header_precedence :
    (∀ (items : List Str), ∀ b ∈ (parse_tokens items).2, ∀ r ∈ b.rows,
      containsTok ("Fee".toList) r.label = false) ∧
    (parse_tokens ["Per Semester".toList, "Some Fee".toList,
      "$125".toList]).2 = [] := by
  constructor
  · intro items b hb r hr
    refine phase2_rows_pred
      (fun r => containsTok ("Fee".toList) r.label = false)
      none [] [] (skipToFees (phase1 none items).2) ?_ ?_ ?_ b hb r hr
    · intro tok m _ _ hh _
      show containsTok ("Fee".toList) tok = false
      cases hdr : is_fee_header tok with
      | true => exact absurd hdr hh
      | false =>
        rw [is_fee_header, looks_like_fee_name, Bool.and_self] at hdr
        exact hdr
    · intro r hr
      simp at hr
    · intro b hb
      simp at hb
  · decide

/-- Witness for C6 at a concrete input, block and row. -/
theorem c6_header_precedence_witness :
    containsTok ("Fee".toList)
      (Row.mk ("Full time".toList) (some 5) none).label = false :=
  c6_header_precedence.1 ["Per Semester".toList, "Activity Fee".toList,
    "Full time".toList, "$5".toList]
    (FeeBlock.mk ("Activity Fee".toList)
      [Row.mk ("Full time".toList) (some 5) none]) (by decide)
    (Row.mk ("Full time".toList) (some 5) none) (by decide)

/-- C7: the emitted unit is the money token's explicit unit when present
and otherwise the section default — P5: with the default set and a bare
money token the row's unit is "per credit hour"; P6: with the default set
and an explicit "/per course" suffix the row's unit is "per course". -/
theorem c7_unit_fallback_override :
    parse_tokens ["Per Credit Hour".toList, "Admitted Fall 2025".toList,
      "$1,851".toList] =
      ([⟨"Admitted Fall 2025".toList, some 1851,
          some ("per credit hour".toList)⟩], []) ∧
    parse_tokens ["Per Credit Hour".toList, "Short Courses".toList,
      "$2,314 /per course".toList] =
      ([⟨"Short Courses".toList, some 2314,
          some ("per course".toList)⟩], []) := by
  exact ⟨by decide, by decide⟩

/-- C8: no fee block in the output has an empty row sequence, since
`flush_fee` discards a pending block with zero rows. -/
theorem c8_no_empty_blocks (items : List Str) :
    ∀ b ∈ (parse_tokens items).2, b.rows ≠ [] := by
  intro b hb
  refine phase2_rows_nonempty none [] []
    (skipToFees (phase1 none items).2) ?_ b hb
  intro b hb
  simp at hb

/-- Witness for C8 at a concrete input and its emitted block. -/
theorem c8_no_empty_blocks_witness :
    (FeeBlock.mk ("Activity Fee".toList)
      [Row.mk ("Full time".toList) (some 5) none]).rows ≠ [] :=
  c8_no_empty_blocks ["Per Semester".toList, "Activity Fee".toList,
    "Full time".toList, "$5".toList]
    (FeeBlock.mk ("Activity Fee".toList)
      [Row.mk ("Full time".toList) (some 5) none]) (by decide)

/-- C9: the parser is embedded as a total function — every input token
list, however malformed, yields a result (unhandled tokens are skipped by
the loops, and amount extraction totalises the only fallible step by
returning `none`) — and on the empty token list it returns empty tuition
rates and empty fees. -/
theorem c9_empty_input : parse_tokens [] = ([], []) := rfl

/-- C10: in the tuition region a token containing "Fee" gets no header
treatment: paired with a money token it is emitted as an ordinary tuition
rate label.  The containment hypothesis is deliberately unused by the
proof — phase 1 never inspects it. -/
theorem c10_no_header_in_tuition (label money : Str) (a : Nat)
    (u : Option Str)
    (_h0 : containsTok ("Fee".toList) label = true)
    (h1 : label ≠ perCreditHourTok) (h2 : label ≠ perSemesterTok)
    (h3 : looks_like_money money = true)
    (h4 : money_amount_and_unit money = (some a, u)) :
    parse_tokens [label, money] =
      ([⟨label, some a, pyOrStr u none⟩], []) := by
  have hp : phase1 none [label, money] =
      ([⟨label, some a, pyOrStr u none⟩], []) := by
    rw [phase1_pair_some none label money [] a u h1 h2 h3 h4]
    rfl
  have hu : parse_tokens [label, money] =
      ((phase1 none [label, money]).1,
        phase2 none [] [] (skipToFees (phase1 none [label, money]).2)) :=
    rfl
  rw [hu, hp]
  rfl

/-- Witness for C10 at the pair ("Lab Fee", "$100"). -/
theorem c10_no_header_in_tuition_witness :
    parse_tokens ["Lab Fee".toList, "$100".toList] =
      ([⟨"Lab Fee".toList, some 100, pyOrStr none none⟩], []) :=
  c10_no_header_in_tuition ("Lab Fee".toList) ("$100".toList) 100 none
    (by decide) (by decide) (by decide) (by decide) (by decide)

end GradTuition
